import Mathlib

/-!
# Verification of the keybinding resolver
  (src/vs/platform/keybinding/common/keybindingResolver.ts)

A shallow embedding of `KeybindingResolver`: the removal pass
(`handleRemovals`), index construction (`_addKeyPress`), conflict
arbitration (`whenIsEntirelyIncluded`), query-time resolution (`resolve`,
`_findCommand`) and the reverse lookups (`lookupKeybindings`,
`lookupPrimaryKeybinding`, `getDefaultBoundCommands`).

The context-key predicate module is an external collaborator of the
resolver (imported from `vs/platform/contextkey`): the resolver only
inspects an expression's `type` tag (constant true / constant false),
calls `evaluate(context)`, and defers to the external functions
`implies` and `expressionsAreEqualWithConstantSubstitution`.  We model
the expression type by a small concrete language and keep the two
external decision functions as explicit parameters, exactly as the
resolver consumes them.

JS-specific behaviours that the model mirrors:
* out-of-range array access (`chords[1]`) yields `undefined`, modelled
  by `Option` via `List.get?`/`getElem?`;
* string truthiness (`if (keypressFirstPart)`): the empty string is
  falsy, modelled by `strTruthy`;
* `charAt(0) === '-'` on an empty string is false (`charAt` gives `""`);
* `Map` iteration/insertion order, modelled by association lists whose
  `set` keeps the position of an existing key and appends a new one;
* `arr.splice(i, 1)` removal-by-object-identity in
  `_removeFromLookupMap`, modelled by removal of the first structurally
  equal occurrence (observationally equal: splicing either of two
  structurally equal elements yields the same list of values).
-/

/-- A context is the set of context keys that currently hold
(the resolver passes it opaquely to `evaluate`). -/
abbrev Context := List String

/-- Modelled from the spec: the external predicate module's expression
type ("boolean expressions over named context variables", with
distinguished constant-true and constant-false sentinels).  The resolver
itself only distinguishes the constant-true and constant-false tags and
otherwise treats expressions opaquely, so a representative fragment
(constants, a variable, a negated variable) suffices. -/
inductive ContextKeyExpression where
  | ctrue : ContextKeyExpression
  | cfalse : ContextKeyExpression
  | cdefined (key : String) : ContextKeyExpression
  | cnot (key : String) : ContextKeyExpression
deriving DecidableEq, Repr

/-- Modelled from the spec: the predicate module's
`evaluate(context) -> bool`. -/
def ContextKeyExpression.evaluate : ContextKeyExpression → Context → Bool
  | .ctrue, _ => true
  | .cfalse, _ => false
  | .cdefined k, ctx => ctx.contains k
  | .cnot k, ctx => !(ctx.contains k)

/-- One `(commandId, args?)` entry of a rule's `commands` list
(`KeyboundCommand`).  Arguments are opaque to the resolver. -/
structure KeyboundCommand where
  command : String
  args : Option String := none
deriving DecidableEq, Repr

/-- `ResolvedKeybindingItem`, restricted to the fields the resolver
reads (`extensionId` / `isBuiltinExtension` are only used for log
messages, which the pure model drops). -/
structure ResolvedKeybindingItem where
  chords : List String
  when : Option ContextKeyExpression
  commands : List KeyboundCommand
  isDefault : Bool
  bubble : Bool
deriving DecidableEq, Repr

/-- The record returned by `resolve` (`IResolveResult`). -/
structure IResolveResult where
  enterMultiChord : Bool
  leaveMultiChord : Bool
  commands : List KeyboundCommand
  bubble : Bool
deriving DecidableEq, Repr

/-- JS string truthiness of a `string | null | undefined` value:
`null`/`undefined` and the empty string are falsy. -/
def strTruthy : Option String → Bool
  | none => false
  | some s => s ≠ ""

/-- `s.charAt(0) === '-'` (false for the empty string). -/
def startsWithDash (s : String) : Bool :=
  match s.data with
  | '-' :: _ => true
  | _ => false

/-- The commandId targeted by a rule if the rule is a removal directive:
`commands.length === 1 && commands[0].command.charAt(0) === '-'`, the
target being `commands[0].command.substring(1)` (first pass of
`handleRemovals`). -/
def removalTarget? (r : ResolvedKeybindingItem) : Option String :=
  match r.commands with
  | [c] =>
    match c.command.data with
    | '-' :: rest => some (String.mk rest)
    | _ => none
  | _ => none

/-- Association-list lookup, modelling `Map.get` (`undefined` ↦ `none`). -/
def mapGet? {α : Type} (m : List (String × α)) (k : String) : Option α :=
  (m.find? (fun p => p.1 == k)).map (fun p => p.2)

/-- Association-list update, modelling `Map.set`: an existing key keeps
its position, a new key is appended (JS `Map` insertion order). -/
def mapSet {α : Type} (m : List (String × α)) (k : String) (v : α) :
    List (String × α) :=
  if (m.find? (fun p => p.1 == k)).isSome then
    m.map (fun p => if p.1 == k then (k, v) else p)
  else
    m ++ [(k, v)]

namespace KeybindingResolver

/-- `KeybindingResolver._isTargetedForRemoval`. -/
def _isTargetedForRemoval (eqWCS : ContextKeyExpression → ContextKeyExpression → Bool)
    (defaultKb : ResolvedKeybindingItem)
    (keypressFirstPart keypressChordPart : Option String)
    (when : Option ContextKeyExpression) : Bool :=
  if strTruthy keypressFirstPart && defaultKb.chords[0]? != keypressFirstPart then
    false
  else if strTruthy keypressChordPart && defaultKb.chords[1]? != keypressChordPart then
    false
  else
    match when with
    | some w =>
      if w ≠ .ctrue then
        match defaultKb.when with
        | none => false
        | some dw => eqWCS w dw
      else true
    | none => true

/-- The per-rule keep/drop decision of the second pass of
`handleRemovals` (the body of its second `for` loop); `rules` stands
for the removals hash-map built in the first pass, queried through
`removalTarget?`. -/
def keepRule (eqWCS : ContextKeyExpression → ContextKeyExpression → Bool)
    (rules : List ResolvedKeybindingItem) (rule : ResolvedKeybindingItem) : Bool :=
  match rule.commands with
  | [] => true
  | c :: rest =>
    if rest ≠ [] then true
    else if c.command = "" then true
    else if startsWithDash c.command then false
    else
      let commandRemovals :=
        rules.filter (fun r => removalTarget? r == some c.command)
      if commandRemovals.isEmpty || !rule.isDefault then true
      else
        !(commandRemovals.any (fun cr =>
          _isTargetedForRemoval eqWCS rule cr.chords[0]? cr.chords[1]? cr.when))

/-- `KeybindingResolver.handleRemovals`. -/
def handleRemovals (eqWCS : ContextKeyExpression → ContextKeyExpression → Bool)
    (rules : List ResolvedKeybindingItem) : List ResolvedKeybindingItem :=
  if rules.all (fun r => (removalTarget? r).isNone) then
    rules
  else
    rules.filter (keepRule eqWCS rules)

/-- The two mutable indices the constructor builds: `_map` (first chord
→ candidate rules, insertion order) and `_lookupMap` (commandId →
single-command rules, insertion order). -/
structure Maps where
  _map : List (String × List ResolvedKeybindingItem)
  _lookupMap : List (String × List ResolvedKeybindingItem)
deriving DecidableEq, Repr

/-- `KeybindingResolver._addToLookupMap`. -/
def _addToLookupMap (st : Maps) (item : ResolvedKeybindingItem) : Maps :=
  match item.commands with
  | [c] =>
    match mapGet? st._lookupMap c.command with
    | none => { st with _lookupMap := mapSet st._lookupMap c.command [item] }
    | some arr => { st with _lookupMap := mapSet st._lookupMap c.command (arr ++ [item]) }
  | _ => st

/-- `arr.splice(i, 1)` where `arr[i] === item`: remove the first
occurrence (none found: unchanged). -/
def removeFirst (l : List ResolvedKeybindingItem) (item : ResolvedKeybindingItem) :
    List ResolvedKeybindingItem :=
  match l with
  | [] => []
  | x :: xs => if x = item then xs else x :: removeFirst xs item

/-- `KeybindingResolver._removeFromLookupMap`. -/
def _removeFromLookupMap (st : Maps) (item : ResolvedKeybindingItem) : Maps :=
  match item.commands with
  | [c] =>
    match mapGet? st._lookupMap c.command with
    | none => st
    | some arr => { st with _lookupMap := mapSet st._lookupMap c.command (removeFirst arr item) }
  | _ => st

/-- `arrays.equals(a, b, (x, y) => x.command === y.command)`: equal
lengths and pairwise equal commandIds (arguments ignored). -/
def commandsEqual (a b : List KeyboundCommand) : Bool :=
  a.length == b.length &&
    (List.zip a b).all (fun p => p.1.command == p.2.command)

/-- `KeybindingResolver.whenIsEntirelyIncluded`: provable `a` implies
`b`, with absent/constant-true handled locally and the rest deferred to
the external `implies`. -/
def whenIsEntirelyIncluded (impliesFn : ContextKeyExpression → ContextKeyExpression → Bool)
    (a b : Option ContextKeyExpression) : Bool :=
  match b with
  | none => true
  | some bw =>
    if bw = .ctrue then true
    else
      match a with
      | none => false
      | some aw =>
        if aw = .ctrue then false
        else impliesFn aw bw

/-- One iteration of the conflict loop of
`KeybindingResolver._addKeyPress`: rules agreeing on the command
sequence coexist; multi-chord rules differing in the second chord are
unrelated; otherwise a conflict entirely included in the new item's
`when` is removed from the lookup map. -/
def conflictStep (impliesFn : ContextKeyExpression → ContextKeyExpression → Bool)
    (item : ResolvedKeybindingItem) (acc : Maps) (conflict : ResolvedKeybindingItem) : Maps :=
  if commandsEqual conflict.commands item.commands then acc
  else if conflict.chords.length > 1 && item.chords.length > 1 &&
      conflict.chords[1]? != item.chords[1]? then acc
  else if whenIsEntirelyIncluded impliesFn conflict.when item.when then
    _removeFromLookupMap acc conflict
  else acc

/-- `KeybindingResolver._addKeyPress`.  The conflict loop runs over the
existing candidates from most-recently-inserted to least
(`i = conflicts.length - 1 .. 0`), only mutating `_lookupMap`; the item
is then appended to the candidate list. -/
def _addKeyPress (impliesFn : ContextKeyExpression → ContextKeyExpression → Bool)
    (st : Maps) (keypress : String) (item : ResolvedKeybindingItem) : Maps :=
  match mapGet? st._map keypress with
  | none =>
    _addToLookupMap { st with _map := mapSet st._map keypress [item] } item
  | some conflicts =>
    let st1 := conflicts.reverse.foldl (conflictStep impliesFn item) st
    _addToLookupMap { st1 with _map := mapSet st1._map keypress (conflicts ++ [item]) } item

/-- One iteration of the constructor's index-building loop: skip
zero-chord rules and rules whose `when` is the constant-false
expression, otherwise insert under the first chord. -/
def addRule (impliesFn : ContextKeyExpression → ContextKeyExpression → Bool)
    (st : Maps) (k : ResolvedKeybindingItem) : Maps :=
  match k.chords with
  | [] => st
  | c0 :: _ =>
    if k.when = some .cfalse then st
    else _addKeyPress impliesFn st c0 k

/-- The constructor's index-building loop over the merged rules. -/
def buildMaps (impliesFn : ContextKeyExpression → ContextKeyExpression → Bool)
    (keybindings : List ResolvedKeybindingItem) : Maps :=
  keybindings.foldl (addRule impliesFn) ⟨[], []⟩

/-- The resolver's state after construction. -/
structure State where
  _defaultBoundCommands : List String
  _keybindings : List ResolvedKeybindingItem
  _maps : Maps
deriving DecidableEq, Repr

/-- One command of one default rule, as processed by the constructor's
`_defaultBoundCommands` loop: `if (command && command.charAt(0) !== '-')`
then `Map.set(command, true)` (the `Map<string, boolean>` is modelled by
its key list in insertion order). -/
def dbcInsert (acc : List String) (c : KeyboundCommand) : List String :=
  if c.command ≠ "" && !(startsWithDash c.command) then
    (if acc.contains c.command then acc else acc ++ [c.command])
  else acc

/-- The `_defaultBoundCommands` computation of the constructor, over all
commands of every default rule. -/
def defaultBoundCommands (defaultKeybindings : List ResolvedKeybindingItem) :
    List String :=
  defaultKeybindings.foldl (fun acc k => k.commands.foldl dbcInsert acc) []

/-- The `KeybindingResolver` constructor. -/
def construct (eqWCS impliesFn : ContextKeyExpression → ContextKeyExpression → Bool)
    (defaultKeybindings overrides : List ResolvedKeybindingItem) : State :=
  let keybindings := handleRemovals eqWCS (defaultKeybindings ++ overrides)
  { _defaultBoundCommands := defaultBoundCommands defaultKeybindings
    _keybindings := keybindings
    _maps := buildMaps impliesFn keybindings }

/-- `KeybindingResolver.getDefaultBoundCommands` (observed through
membership of its key set). -/
def getDefaultBoundCommands (r : State) : List String :=
  r._defaultBoundCommands

/-- `KeybindingResolver._contextMatchesRules`. -/
def _contextMatchesRules (context : Context) (rules : Option ContextKeyExpression) : Bool :=
  match rules with
  | none => true
  | some r => r.evaluate context

/-- `KeybindingResolver._findCommand`: scan `matches` from the last
entry down to the first, returning the first whose `when` matches the
context. -/
def _findCommand (context : Context) (ms : List ResolvedKeybindingItem) :
    Option ResolvedKeybindingItem :=
  ms.reverse.find? (fun k => _contextMatchesRules context k.when)

/-- `KeybindingResolver.resolve`.  Note `result.chords[1] !== null` on
the enter-multi-chord branch is always true in JS (`chords[1]` is a
string or `undefined`, never `null`), so the branch condition reduces
to `currentChord === null && result.chords.length > 1`. -/
def resolve (r : State) (context : Context) (currentChord : Option String)
    (keypress : String) : Option IResolveResult :=
  let lookupMap? : Option (List ResolvedKeybindingItem) :=
    match currentChord with
    | some cc =>
      match mapGet? r._maps._map cc with
      | none => none
      | some candidates =>
        some (candidates.filter (fun c => c.chords[1]? == some keypress))
    | none => mapGet? r._maps._map keypress
  match lookupMap? with
  | none => none
  | some lookupMap =>
    match _findCommand context lookupMap with
    | none => none
    | some result =>
      if currentChord = none ∧ result.chords.length > 1 then
        some { enterMultiChord := true, leaveMultiChord := false
               commands := [], bubble := false }
      else
        some { enterMultiChord := false
               leaveMultiChord := result.chords.length > 1
               commands := result.commands, bubble := result.bubble }

/-- `KeybindingResolver.lookupKeybindings`: the `_lookupMap` entry,
reversed so the most recent item comes first. -/
def lookupKeybindings (r : State) (commandId : String) :
    List ResolvedKeybindingItem :=
  match mapGet? r._maps._lookupMap commandId with
  | none => []
  | some items => if items.isEmpty then [] else items.reverse

/-- `KeybindingResolver.lookupPrimaryKeybinding`.  The external
`IContextKeyService.contextMatchesRules` is modelled by
`_contextMatchesRules` against the supplied context. -/
def lookupPrimaryKeybinding (r : State) (commandId : String) (context : Context) :
    Option ResolvedKeybindingItem :=
  match mapGet? r._maps._lookupMap commandId with
  | none => none
  | some items =>
    if items.length = 0 then none
    else if items.length = 1 then items[0]?
    else
      match items.reverse.find? (fun item => _contextMatchesRules context item.when) with
      | some item => some item
      | none => items[items.length - 1]?

end KeybindingResolver

/-! ## Concrete instances used to exercise the claims -/

/-- A trivial stand-in for the external
`expressionsAreEqualWithConstantSubstitution` / `implies` functions that
never relates two expressions. -/
def relNever : ContextKeyExpression → ContextKeyExpression → Bool := fun _ _ => false

/-- A stand-in for the external `implies` that relates any two
expressions (an admissible behaviour of the opaque black box from the
resolver's point of view). -/
def relAlways : ContextKeyExpression → ContextKeyExpression → Bool := fun _ _ => true

/-- A default rule binding `x` on chord `a` under a predicate. -/
def exDefX : ResolvedKeybindingItem :=
  { chords := ["a"], when := some (.cdefined "p"), commands := [{ command := "x" }],
    isDefault := true, bubble := false }

/-- A user rule binding `x` on chord `a`. -/
def exUserX : ResolvedKeybindingItem :=
  { chords := ["a"], when := none, commands := [{ command := "x" }],
    isDefault := false, bubble := false }

/-- A removal directive targeting `x`, chord `a`, no predicate. -/
def exRemoveX : ResolvedKeybindingItem :=
  { chords := ["a"], when := none, commands := [{ command := "-x" }],
    isDefault := false, bubble := false }

/-- A default multi-command rule firing `mx` then `my`. -/
def exMultiCmd : ResolvedKeybindingItem :=
  { chords := ["a"], when := none,
    commands := [{ command := "mx" }, { command := "my" }],
    isDefault := true, bubble := false }

/-- A rule with a chord but no commands (unbound placeholder). -/
def exZeroCmd : ResolvedKeybindingItem :=
  { chords := ["a"], when := none, commands := [], isDefault := true, bubble := true }

/-- A two-chord rule `[k1, k2]` guarded by context key `c`. -/
def exTwoChord : ResolvedKeybindingItem :=
  { chords := ["k1", "k2"], when := some (.cdefined "c"),
    commands := [{ command := "z" }], isDefault := true, bubble := true }

/-- Earlier rule on chord `a`, guarded by `pa`, binding `ca`. -/
def exEarly : ResolvedKeybindingItem :=
  { chords := ["a"], when := some (.cdefined "pa"), commands := [{ command := "ca" }],
    isDefault := true, bubble := false }

/-- Later rule on chord `a`, guarded by `pb`, binding `cb`. -/
def exLate : ResolvedKeybindingItem :=
  { chords := ["a"], when := some (.cdefined "pb"), commands := [{ command := "cb" }],
    isDefault := true, bubble := true }

/-- Older rule binding command `c`, guarded by `p1`. -/
def exOld : ResolvedKeybindingItem :=
  { chords := ["a"], when := some (.cdefined "p1"), commands := [{ command := "c" }],
    isDefault := true, bubble := false }

/-- Newer rule binding command `c`, guarded by `p2`. -/
def exNew : ResolvedKeybindingItem :=
  { chords := ["b"], when := some (.cdefined "p2"), commands := [{ command := "c" }],
    isDefault := true, bubble := false }

/-! ## Helper lemmas: the removal pass -/

open KeybindingResolver

theorem keepRule_true_of_shape
    (eqWCS : ContextKeyExpression → ContextKeyExpression → Bool)
    (rules : List ResolvedKeybindingItem) (r : ResolvedKeybindingItem)
    (h : r.commands = [] ∨ 1 < r.commands.length ∨
      ∃ c, r.commands = [c] ∧ c.command = "") :
    keepRule eqWCS rules r = true := by
  rcases h with h | h | ⟨c, hc, hcmd⟩
  · unfold keepRule; rw [h]
  · rcases hcs : r.commands with _ | ⟨a, tl⟩
    · rw [hcs] at h; simp at h
    · rcases htl : tl with _ | ⟨b, tl2⟩
      · rw [hcs, htl] at h; simp at h
      · unfold keepRule; rw [hcs, htl]; simp
  · unfold keepRule; rw [hc]; simp [hcmd]

theorem keepRule_false_of_removal
    (eqWCS : ContextKeyExpression → ContextKeyExpression → Bool)
    (rules : List ResolvedKeybindingItem) (r : ResolvedKeybindingItem)
    (t : String) (h : removalTarget? r = some t) :
    keepRule eqWCS rules r = false := by
  unfold removalTarget? at h
  split at h
  · rename_i c heq
    split at h
    · rename_i rest hdata
      unfold keepRule
      rw [heq]
      have hne : c.command ≠ "" := by
        intro habs
        rw [habs] at hdata
        exact List.noConfusion hdata
      have hdash : startsWithDash c.command = true := by
        unfold startsWithDash
        rw [hdata]
        rfl
      simp [hne, hdash]
    · cases h
  · cases h

theorem all_isNone_false_of_mem
    (rules : List ResolvedKeybindingItem) (D : ResolvedKeybindingItem) (t : String)
    (hD : D ∈ rules) (hDt : removalTarget? D = some t) :
    (rules.all fun r => (removalTarget? r).isNone) = false := by
  by_contra habs
  have : (rules.all fun r => (removalTarget? r).isNone) = true := by
    cases hx : rules.all fun r => (removalTarget? r).isNone
    · exact absurd hx habs
    · rfl
  have := List.all_eq_true.mp this D hD
  rw [hDt] at this
  cases this

theorem handleRemovals_eq_filter
    (eqWCS : ContextKeyExpression → ContextKeyExpression → Bool)
    (rules : List ResolvedKeybindingItem)
    (h : (rules.all fun r => (removalTarget? r).isNone) = false) :
    handleRemovals eqWCS rules = rules.filter (keepRule eqWCS rules) := by
  unfold handleRemovals
  rw [h]
  rfl

theorem handleRemovals_eq_self
    (eqWCS : ContextKeyExpression → ContextKeyExpression → Bool)
    (rules : List ResolvedKeybindingItem)
    (h : ∀ r ∈ rules, removalTarget? r = none) :
    handleRemovals eqWCS rules = rules := by
  unfold handleRemovals
  have : (rules.all fun r => (removalTarget? r).isNone) = true :=
    List.all_eq_true.mpr (fun r hr => by rw [h r hr]; rfl)
  rw [this]
  rfl

theorem removalTarget?_eq_none_of_mem_handleRemovals
    (eqWCS : ContextKeyExpression → ContextKeyExpression → Bool)
    (rules : List ResolvedKeybindingItem) (r : ResolvedKeybindingItem)
    (hr : r ∈ handleRemovals eqWCS rules) :
    removalTarget? r = none := by
  cases hall : (rules.all fun r => (removalTarget? r).isNone) with
  | true =>
    have heq : handleRemovals eqWCS rules = rules := by
      unfold handleRemovals; rw [hall]; rfl
    rw [heq] at hr
    have := List.all_eq_true.mp hall r hr
    cases hx : removalTarget? r with
    | none => rfl
    | some t => rw [hx] at this; cases this
  | false =>
    rw [handleRemovals_eq_filter eqWCS rules hall] at hr
    have hk := (List.mem_filter.mp hr).2
    cases hx : removalTarget? r with
    | none => rfl
    | some t =>
      rw [keepRule_false_of_removal eqWCS rules r t hx] at hk
      cases hk

/-! ## Claims about the removal pass -/

/-- Claim C7: in the removal pass, every rule with zero commands, more
than one command, or an empty-string commandId appears unchanged in the
output of `handleRemovals` (even when removal directives exist), while
every rule that is itself a removal directive (single command beginning
with `-`) is absent from the output, so no removal directive ever
appears in the merged rule list. -/
theorem C7_removal_pass_edge_rules_and_directives
    (eqWCS : ContextKeyExpression → ContextKeyExpression → Bool)
    (rules : List ResolvedKeybindingItem) :
    (∀ r ∈ rules,
      (r.commands = [] ∨ 1 < r.commands.length ∨
        ∃ c, r.commands = [c] ∧ c.command = "") →
      r ∈ handleRemovals eqWCS rules) ∧
    (∀ r ∈ handleRemovals eqWCS rules, removalTarget? r = none) := by
  constructor
  · intro r hr hshape
    cases hall : (rules.all fun r => (removalTarget? r).isNone) with
    | true =>
      have heq : handleRemovals eqWCS rules = rules := by
        unfold handleRemovals; rw [hall]; rfl
      rw [heq]; exact hr
    | false =>
      rw [handleRemovals_eq_filter eqWCS rules hall]
      exact List.mem_filter.mpr ⟨hr, keepRule_true_of_shape eqWCS rules r hshape⟩
  · exact removalTarget?_eq_none_of_mem_handleRemovals eqWCS rules

/-- Witness for C7 at a concrete input: the zero-command rule survives a
removal pass that does contain a removal directive, and is itself no
removal directive. -/
theorem C7_witness :
    exZeroCmd ∈ handleRemovals relNever [exZeroCmd, exRemoveX] ∧
    removalTarget? exZeroCmd = none :=
  ⟨(C7_removal_pass_edge_rules_and_directives relNever [exZeroCmd, exRemoveX]).1
      exZeroCmd (by decide) (Or.inl (by decide)),
   (C7_removal_pass_edge_rules_and_directives relNever [exZeroCmd, exRemoveX]).2
      exZeroCmd (by decide)⟩

/-- Claim C8: `handleRemovals` is idempotent — the first application
drops every removal directive, so the second application takes the
no-removals fast path and returns its input unchanged. -/
theorem C8_handleRemovals_idempotent
    (eqWCS : ContextKeyExpression → ContextKeyExpression → Bool)
    (rules : List ResolvedKeybindingItem) :
    handleRemovals eqWCS (handleRemovals eqWCS rules) = handleRemovals eqWCS rules :=
  handleRemovals_eq_self eqWCS _
    (removalTarget?_eq_none_of_mem_handleRemovals eqWCS rules)

/-- Claim C1: a removal directive with chord list `[K]`, no predicate
and single command `-C` causes every default rule binding command `C`
with first chord `K` to be dropped by `handleRemovals`, regardless of
that default rule's predicate, while a non-default (user) rule binding
`C` on chord `K` is never dropped by the removal pass. -/
theorem C1_removal_directive_drops_only_defaults
    (eqWCS : ContextKeyExpression → ContextKeyExpression → Bool)
    (rules : List ResolvedKeybindingItem)
    (D R : ResolvedKeybindingItem) (K C : String) (dargs rargs : Option String)
    (hD : D ∈ rules) (hDch : D.chords = [K]) (hDwhen : D.when = none)
    (hDcmd : D.commands = [{ command := "-" ++ C, args := dargs }])
    (hC : C ≠ "") (hCd : startsWithDash C = false)
    (hR : R ∈ rules) (hRcmd : R.commands = [{ command := C, args := rargs }])
    (hRch : R.chords[0]? = some K) :
    (R.isDefault = true → R ∉ handleRemovals eqWCS rules) ∧
    (R.isDefault = false → R ∈ handleRemovals eqWCS rules) := by
  have hdata : ("-" ++ C).data = '-' :: C.data := rfl
  have hDtarget : removalTarget? D = some C := by
    unfold removalTarget?
    rw [hDcmd]
    show (match ("-" ++ C).data with
      | '-' :: rest => some (String.mk rest)
      | _ => none) = some C
    rw [hdata]
    rfl
  have hfilter : handleRemovals eqWCS rules = rules.filter (keepRule eqWCS rules) :=
    handleRemovals_eq_filter eqWCS rules
      (all_isNone_false_of_mem rules D C hD hDtarget)
  have htarg : _isTargetedForRemoval eqWCS R D.chords[0]? D.chords[1]? D.when = true := by
    rw [hDch, hDwhen]
    simp [_isTargetedForRemoval, strTruthy, hRch]
  have hDin : D ∈ rules.filter (fun r => removalTarget? r == some C) :=
    List.mem_filter.mpr ⟨hD, by simp [hDtarget]⟩
  have hnotEmpty : (rules.filter (fun r => removalTarget? r == some C)).isEmpty = false := by
    cases hE : (rules.filter (fun r => removalTarget? r == some C)).isEmpty with
    | false => rfl
    | true =>
      rw [List.isEmpty_iff] at hE
      rw [hE] at hDin
      cases hDin
  have hany : (rules.filter (fun r => removalTarget? r == some C)).any
      (fun cr => _isTargetedForRemoval eqWCS R cr.chords[0]? cr.chords[1]? cr.when) = true :=
    List.any_eq_true.mpr ⟨D, hDin, htarg⟩
  constructor
  · intro hdef hmem
    rw [hfilter] at hmem
    have hk := (List.mem_filter.mp hmem).2
    unfold keepRule at hk
    rw [hRcmd] at hk
    simp [hC, hCd, hdef, hnotEmpty, hany] at hk
  · intro hndef
    rw [hfilter]
    refine List.mem_filter.mpr ⟨hR, ?_⟩
    unfold keepRule
    rw [hRcmd]
    simp [hC, hCd, hndef]

/-- Witness for C1 at a concrete input: the default binding of `x` on
chord `a` is dropped, the user binding survives. -/
theorem C1_witness :
    (exDefX ∉ handleRemovals relNever [exDefX, exUserX, exRemoveX]) ∧
    (exUserX ∈ handleRemovals relNever [exDefX, exUserX, exRemoveX]) :=
  ⟨(C1_removal_directive_drops_only_defaults relNever [exDefX, exUserX, exRemoveX]
      exRemoveX exDefX "a" "x" none none (by decide) (by decide) (by decide) (by decide)
      (by decide) (by decide) (by decide) (by decide) (by decide)).1 (by decide),
   (C1_removal_directive_drops_only_defaults relNever [exDefX, exUserX, exRemoveX]
      exRemoveX exUserX "a" "x" none none (by decide) (by decide) (by decide) (by decide)
      (by decide) (by decide) (by decide) (by decide) (by decide)).2 (by decide)⟩

/-! ## Helper lemmas: association-list maps and the chord index -/

theorem mapGet?_mapSet_self {α : Type} (m : List (String × α)) (k : String) (v : α) :
    mapGet? (mapSet m k v) k = some v := by
  unfold mapGet? mapSet
  by_cases h : ((m.find? (fun p => p.1 == k)).isSome = true)
  · simp only [h, if_true]
    rw [List.find?_map]
    have hcomp : ((fun p : String × α => p.1 == k) ∘ fun p : String × α =>
        if p.1 == k then (k, v) else p) = fun p : String × α => p.1 == k := by
      funext q
      by_cases hq : q.1 = k
      · simp [hq]
      · simp [hq]
    rw [hcomp]
    obtain ⟨e, he⟩ := Option.isSome_iff_exists.mp h
    have hek : e.1 = k := by simpa using List.find?_some he
    rw [he]
    simp [hek]
  · rw [if_neg h]
    rw [List.find?_append]
    have hn : m.find? (fun p => p.1 == k) = none := by
      cases hf : m.find? (fun p => p.1 == k) with
      | none => rfl
      | some e => rw [hf] at h; simp at h
    rw [hn]
    simp [List.find?]

theorem mapGet?_mapSet_ne {α : Type} (m : List (String × α)) (k kq : String) (v : α)
    (hne : kq ≠ k) : mapGet? (mapSet m k v) kq = mapGet? m kq := by
  unfold mapGet? mapSet
  by_cases h : ((m.find? (fun p => p.1 == k)).isSome = true)
  · simp only [h, if_true]
    rw [List.find?_map]
    have hcomp : ((fun p : String × α => p.1 == kq) ∘ fun p : String × α =>
        if p.1 == k then (k, v) else p) = fun p : String × α => p.1 == kq := by
      funext q
      by_cases hq : q.1 = k
      · simp [hq, Ne.symm hne]
      · simp [hq]
    rw [hcomp]
    cases hf : m.find? (fun p => p.1 == kq) with
    | none => simp
    | some e =>
      have hekq : e.1 = kq := by simpa using List.find?_some hf
      have hek : ¬(e.1 = k) := by rw [hekq]; exact hne
      simp [hek]
  · rw [if_neg h]
    rw [List.find?_append]
    have hlast : List.find? (fun p : String × α => p.1 == kq) [(k, v)] = none := by
      have hkk : (k == kq) = false := by
        simp only [beq_eq_false_iff_ne, ne_eq]
        exact Ne.symm hne
      simp [List.find?, hkk]
    rw [hlast]
    cases m.find? (fun p : String × α => p.1 == kq) <;> simp

theorem _map_removeFromLookupMap (st : Maps) (item : ResolvedKeybindingItem) :
    (_removeFromLookupMap st item)._map = st._map := by
  unfold _removeFromLookupMap
  split
  · split <;> rfl
  · rfl

theorem _map_addToLookupMap (st : Maps) (item : ResolvedKeybindingItem) :
    (_addToLookupMap st item)._map = st._map := by
  unfold _addToLookupMap
  split
  · split <;> rfl
  · rfl

theorem _map_conflictStep
    (impliesFn : ContextKeyExpression → ContextKeyExpression → Bool)
    (item : ResolvedKeybindingItem) (acc : Maps) (conflict : ResolvedKeybindingItem) :
    (conflictStep impliesFn item acc conflict)._map = acc._map := by
  unfold conflictStep
  split
  · rfl
  split
  · rfl
  split
  · exact _map_removeFromLookupMap acc _
  · rfl

theorem _map_conflictFold
    (impliesFn : ContextKeyExpression → ContextKeyExpression → Bool)
    (item : ResolvedKeybindingItem) (l : List ResolvedKeybindingItem) (st : Maps) :
    (l.foldl (conflictStep impliesFn item) st)._map = st._map := by
  induction l generalizing st with
  | nil => rfl
  | cons x xs ih =>
    rw [List.foldl_cons, ih, _map_conflictStep]

theorem _map_addKeyPress
    (impliesFn : ContextKeyExpression → ContextKeyExpression → Bool)
    (st : Maps) (k : String) (item : ResolvedKeybindingItem) :
    (_addKeyPress impliesFn st k item)._map
      = mapSet st._map k (((mapGet? st._map k).getD []) ++ [item]) := by
  unfold _addKeyPress
  cases h : mapGet? st._map k with
  | none =>
    rw [_map_addToLookupMap]
    simp
  | some conflicts =>
    rw [_map_addToLookupMap]
    rw [_map_conflictFold]
    rfl

theorem _map_addRule
    (impliesFn : ContextKeyExpression → ContextKeyExpression → Bool)
    (st : Maps) (k : ResolvedKeybindingItem) (c0 : String) (cs : List String)
    (hch : k.chords = c0 :: cs) (hwhen : k.when ≠ some .cfalse) :
    (addRule impliesFn st k)._map
      = mapSet st._map c0 (((mapGet? st._map c0).getD []) ++ [k]) := by
  unfold addRule
  rw [hch]
  simp [hwhen, _map_addKeyPress]

theorem when_ne_cfalse_of_matches (ctx : Context) (w : Option ContextKeyExpression)
    (h : _contextMatchesRules ctx w = true) : w ≠ some .cfalse := by
  intro he
  rw [he] at h
  simp [_contextMatchesRules, ContextKeyExpression.evaluate] at h

theorem find?_reverse_append_scan {α : Type} (p : α → Bool) (pre post : List α) (k : α)
    (hpost : ∀ y ∈ post, p y = false) (hk : p k = true) :
    (pre ++ k :: post).reverse.find? p = some k := by
  rw [List.reverse_append, List.reverse_cons, List.find?_append, List.find?_append]
  have h1 : post.reverse.find? p = none :=
    List.find?_eq_none.mpr (fun x hx => by
      rw [hpost x (List.mem_reverse.mp hx)]; simp)
  rw [h1]
  have h2 : List.find? p [k] = some k := by simp [List.find?, hk]
  rw [h2]
  rfl

theorem resolve_currentChord_some (r : State) (ctx : Context) (c kp : String) :
    resolve r ctx (some c) kp =
      match mapGet? r._maps._map c with
      | none => none
      | some candidates =>
        match _findCommand ctx (candidates.filter fun cc => cc.chords[1]? == some kp) with
        | none => none
        | some result =>
          some { enterMultiChord := false, leaveMultiChord := result.chords.length > 1,
                 commands := result.commands, bubble := result.bubble } := by
  cases hm : mapGet? r._maps._map c with
  | none =>
    unfold resolve
    simp only [hm]
  | some candidates =>
    cases hf : _findCommand ctx (candidates.filter fun cc => cc.chords[1]? == some kp) with
    | none =>
      unfold resolve
      simp only [hm, hf]
    | some result =>
      unfold resolve
      simp only [hm, hf]
      have hcond : ¬((some c = none) ∧ result.chords.length > 1) := by
        rintro ⟨h1, -⟩; cases h1
      rw [if_neg hcond]

theorem resolve_currentChord_none (r : State) (ctx : Context) (kp : String) :
    resolve r ctx none kp =
      match mapGet? r._maps._map kp with
      | none => none
      | some candidates =>
        match _findCommand ctx candidates with
        | none => none
        | some result =>
          if result.chords.length > 1 then
            some { enterMultiChord := true, leaveMultiChord := false
                   commands := [], bubble := false }
          else
            some { enterMultiChord := false, leaveMultiChord := result.chords.length > 1
                   commands := result.commands, bubble := result.bubble } := by
  cases hm : mapGet? r._maps._map kp with
  | none => unfold resolve; simp only [hm]
  | some candidates =>
    cases hf : _findCommand ctx candidates with
    | none => unfold resolve; simp only [hm, hf]
    | some result =>
      unfold resolve
      simp only [hm, hf]
      simp

/-! ## Claims about query-time resolution -/

/-- Claim C2: for every chord-index candidate list and every context,
`resolve` scans the candidates from most-recently-inserted to
least-recently-inserted and returns the first whose predicate holds in
that context (an absent predicate counts as true); in particular, for
two rules bound to the same chord whose predicates are both satisfied,
the later-registered rule is the one `resolve` returns. -/
theorem C2_resolve_scans_most_recent_first :
    (∀ (ctx : Context) (pre post : List ResolvedKeybindingItem)
      (k : ResolvedKeybindingItem),
      (∀ y ∈ post, _contextMatchesRules ctx y.when = false) →
      _contextMatchesRules ctx k.when = true →
      _findCommand ctx (pre ++ k :: post) = some k) ∧
    (∀ (eqWCS impliesFn : ContextKeyExpression → ContextKeyExpression → Bool)
      (r1 r2 : ResolvedKeybindingItem) (c : String) (ctx : Context),
      r1.chords = [c] → r2.chords = [c] →
      removalTarget? r1 = none → removalTarget? r2 = none →
      _contextMatchesRules ctx r1.when = true →
      _contextMatchesRules ctx r2.when = true →
      resolve (construct eqWCS impliesFn [r1, r2] []) ctx none c
        = some { enterMultiChord := false, leaveMultiChord := false
                 commands := r2.commands, bubble := r2.bubble }) := by
  constructor
  · intro ctx pre post k hpost hk
    unfold _findCommand
    exact find?_reverse_append_scan _ pre post k hpost hk
  · intro eqWCS impliesFn r1 r2 c ctx h1ch h2ch h1rem h2rem h1ctx h2ctx
    have hmerged : handleRemovals eqWCS ([r1, r2] ++ []) = [r1, r2] := by
      apply handleRemovals_eq_self
      intro r hr
      simp only [List.append_nil, List.mem_cons, List.not_mem_nil, or_false] at hr
      rcases hr with h | h
      · subst h; exact h1rem
      · subst h; exact h2rem
    have hw1 : r1.when ≠ some .cfalse := when_ne_cfalse_of_matches ctx _ h1ctx
    have hw2 : r2.when ≠ some .cfalse := when_ne_cfalse_of_matches ctx _ h2ctx
    have hmaps : (construct eqWCS impliesFn [r1, r2] [])._maps
        = buildMaps impliesFn (handleRemovals eqWCS ([r1, r2] ++ [])) := rfl
    have hbuild : buildMaps impliesFn [r1, r2]
        = addRule impliesFn (addRule impliesFn ⟨[], []⟩ r1) r2 := rfl
    have hm1 : (addRule impliesFn ⟨[], []⟩ r1)._map = mapSet [] c [r1] := by
      rw [_map_addRule impliesFn ⟨[], []⟩ r1 c [] h1ch hw1]
      rfl
    have hm2 : (addRule impliesFn (addRule impliesFn ⟨[], []⟩ r1) r2)._map
        = mapSet (mapSet [] c [r1]) c ([r1] ++ [r2]) := by
      rw [_map_addRule impliesFn _ r2 c [] h2ch hw2, hm1, mapGet?_mapSet_self]
      rfl
    have hget : mapGet? (construct eqWCS impliesFn [r1, r2] [])._maps._map c
        = some [r1, r2] := by
      rw [hmaps, hmerged, hbuild, hm2, mapGet?_mapSet_self]
      rfl
    have hfind : _findCommand ctx [r1, r2] = some r2 := by
      unfold _findCommand
      exact find?_reverse_append_scan _ [r1] [] r2 (by intro y hy; cases hy) h2ctx
    rw [resolve_currentChord_none, hget]
    simp only [hfind]
    rw [h2ch]
    simp

/-- Witness for C2 at concrete inputs: the scan skips the failing most
recent candidate, and the later-registered of two satisfied rules wins. -/
theorem C2_witness :
    _findCommand [] ([exDefX] ++ exUserX :: [exEarly]) = some exUserX ∧
    resolve (construct relNever relNever [exEarly, exLate] []) ["pa", "pb"] none "a"
      = some { enterMultiChord := false, leaveMultiChord := false
               commands := exLate.commands, bubble := exLate.bubble } :=
  ⟨C2_resolve_scans_most_recent_first.1 [] [exDefX] [exEarly] exUserX
      (by decide) (by decide),
   C2_resolve_scans_most_recent_first.2 relNever relNever exEarly exLate "a" ["pa", "pb"]
      (by decide) (by decide) (by decide) (by decide) (by decide) (by decide)⟩

/-- Claim C4: when the only candidate for keypress `K1` is a two-chord
rule `[K1, K2]` with a satisfied predicate, a fresh `resolve` on `K1`
enters the multi chord with no commands, a mid-chord `resolve` on `K2`
fires the rule's commands leaving the multi chord, and a mid-chord
`resolve` on any `K3 ≠ K2` yields no match. -/
theorem C4_multi_chord_flow (r : State) (R : ResolvedKeybindingItem)
    (ctx : Context) (k1 k2 k3 : String)
    (hmap : mapGet? r._maps._map k1 = some [R])
    (hch : R.chords = [k1, k2])
    (hctx : _contextMatchesRules ctx R.when = true)
    (hk3 : k3 ≠ k2) :
    resolve r ctx none k1
      = some { enterMultiChord := true, leaveMultiChord := false
               commands := [], bubble := false } ∧
    resolve r ctx (some k1) k2
      = some { enterMultiChord := false, leaveMultiChord := true
               commands := R.commands, bubble := R.bubble } ∧
    resolve r ctx (some k1) k3 = none := by
  have hfind : _findCommand ctx [R] = some R := by
    unfold _findCommand
    simp [List.find?, hctx]
  refine ⟨?_, ?_, ?_⟩
  · rw [resolve_currentChord_none, hmap]
    simp only [hfind]
    rw [hch]
    simp
  · rw [resolve_currentChord_some, hmap]
    have hfilter : [R].filter (fun cc => cc.chords[1]? == some k2) = [R] := by
      simp [List.filter, hch]
    simp only [hfilter, hfind]
    rw [hch]
    simp
  · rw [resolve_currentChord_some, hmap]
    have hkk : (k2 == k3) = false := beq_eq_false_iff_ne.mpr (Ne.symm hk3)
    have hfilter : [R].filter (fun cc => cc.chords[1]? == some k3) = [] := by
      simp [List.filter, hch, hkk]
    simp only [hfilter]
    rfl

/-- Witness for C4 at a concrete input: the resolver built from the
single two-chord rule. -/
theorem C4_witness :
    resolve (construct relNever relNever [exTwoChord] []) ["c"] none "k1"
      = some { enterMultiChord := true, leaveMultiChord := false
               commands := [], bubble := false } ∧
    resolve (construct relNever relNever [exTwoChord] []) ["c"] (some "k1") "k2"
      = some { enterMultiChord := false, leaveMultiChord := true
               commands := exTwoChord.commands, bubble := exTwoChord.bubble } ∧
    resolve (construct relNever relNever [exTwoChord] []) ["c"] (some "k1") "k3" = none :=
  C4_multi_chord_flow (construct relNever relNever [exTwoChord] []) exTwoChord
    ["c"] "k1" "k2" "k3" (by decide) (by decide) (by decide) (by decide)

/-- Claim C9: a `resolve` call with a non-null `currentChord` never
produces the enter-multi-chord outcome — any non-null result has
`enterMultiChord = false`. -/
theorem C9_mid_chord_never_enters (r : State) (ctx : Context) (c kp : String)
    (res : IResolveResult) (h : resolve r ctx (some c) kp = some res) :
    res.enterMultiChord = false := by
  rw [resolve_currentChord_some] at h
  split at h
  · cases h
  · split at h
    · cases h
    · cases h
      rfl

/-- Witness for C9 at a concrete input: the mid-chord resolution of the
two-chord rule. -/
theorem C9_witness :
    ({ enterMultiChord := false, leaveMultiChord := true
       commands := exTwoChord.commands, bubble := exTwoChord.bubble }
      : IResolveResult).enterMultiChord = false :=
  C9_mid_chord_never_enters (construct relNever relNever [exTwoChord] [])
    ["c"] "k1" "k2" _ (by decide)

theorem _addKeyPress_fresh
    (impliesFn : ContextKeyExpression → ContextKeyExpression → Bool)
    (st : Maps) (k : String) (item : ResolvedKeybindingItem)
    (h : mapGet? st._map k = none) :
    _addKeyPress impliesFn st k item
      = _addToLookupMap { st with _map := mapSet st._map k [item] } item := by
  unfold _addKeyPress
  rw [h]

theorem _addKeyPress_conflicts
    (impliesFn : ContextKeyExpression → ContextKeyExpression → Bool)
    (st : Maps) (k : String) (item : ResolvedKeybindingItem)
    (conflicts : List ResolvedKeybindingItem)
    (h : mapGet? st._map k = some conflicts) :
    _addKeyPress impliesFn st k item
      = _addToLookupMap
          ⟨mapSet (conflicts.reverse.foldl (conflictStep impliesFn item) st)._map
              k (conflicts ++ [item]),
           (conflicts.reverse.foldl (conflictStep impliesFn item) st)._lookupMap⟩ item := by
  unfold _addKeyPress
  rw [h]

theorem _addToLookupMap_single (st : Maps) (item : ResolvedKeybindingItem)
    (c : KeyboundCommand) (hc : item.commands = [c]) :
    _addToLookupMap st item
      = { st with _lookupMap := (mapSet st._lookupMap c.command
            ((mapGet? st._lookupMap c.command).getD [] ++ [item])) } := by
  unfold _addToLookupMap
  rw [hc]
  show (match mapGet? st._lookupMap c.command with
    | none => { st with _lookupMap := mapSet st._lookupMap c.command [item] }
    | some arr => { st with _lookupMap := mapSet st._lookupMap c.command (arr ++ [item]) })
    = { st with _lookupMap := (mapSet st._lookupMap c.command
          ((mapGet? st._lookupMap c.command).getD [] ++ [item])) }
  cases hg : mapGet? st._lookupMap c.command with
  | none => rfl
  | some arr => rfl

theorem _removeFromLookupMap_found (st : Maps) (item : ResolvedKeybindingItem)
    (c : KeyboundCommand) (arr : List ResolvedKeybindingItem)
    (hc : item.commands = [c]) (hg : mapGet? st._lookupMap c.command = some arr) :
    _removeFromLookupMap st item
      = { st with _lookupMap := mapSet st._lookupMap c.command (removeFirst arr item) } := by
  unfold _removeFromLookupMap
  rw [hc]
  show (match mapGet? st._lookupMap c.command with
    | none => st
    | some arr =>
      { st with _lookupMap := mapSet st._lookupMap c.command (removeFirst arr item) })
    = { st with _lookupMap := mapSet st._lookupMap c.command (removeFirst arr item) }
  rw [hg]

theorem removeFirst_cons_self (x : ResolvedKeybindingItem)
    (xs : List ResolvedKeybindingItem) : removeFirst (x :: xs) x = xs := by
  unfold removeFirst
  rw [if_pos rfl]

theorem addRule_cons
    (impliesFn : ContextKeyExpression → ContextKeyExpression → Bool)
    (st : Maps) (k : ResolvedKeybindingItem) (c0 : String) (cs : List String)
    (hch : k.chords = c0 :: cs) (hwhen : k.when ≠ some .cfalse) :
    addRule impliesFn st k = _addKeyPress impliesFn st c0 k := by
  unfold addRule
  rw [hch]
  show (if k.when = some .cfalse then st else _addKeyPress impliesFn st c0 k)
    = _addKeyPress impliesFn st c0 k
  rw [if_neg hwhen]

/-- Claim C3: if rule B is registered before rule A on the same first
chord with different command sequences and `whenIsEntirelyIncluded`
holds of B's and A's predicates, then after construction
`lookupKeybindings` of B's command no longer contains B, but B survives
in the chord index, and `resolve` with a context satisfying B's
predicate and not A's still returns B. -/
theorem C3_subsumption_removes_reverse_index_only
    (eqWCS impliesFn : ContextKeyExpression → ContextKeyExpression → Bool)
    (rb ra : ResolvedKeybindingItem) (c : String) (bc ac : KeyboundCommand)
    (ctx : Context)
    (hrbch : rb.chords = [c]) (hrach : ra.chords = [c])
    (hrbc : rb.commands = [bc]) (hrac : ra.commands = [ac])
    (hne : bc.command ≠ ac.command)
    (hinc : whenIsEntirelyIncluded impliesFn rb.when ra.when = true)
    (hrbctx : _contextMatchesRules ctx rb.when = true)
    (hractx : _contextMatchesRules ctx ra.when = false)
    (hrawhen : ra.when ≠ some .cfalse)
    (hrbrem : removalTarget? rb = none) (hrarem : removalTarget? ra = none) :
    rb ∉ lookupKeybindings (construct eqWCS impliesFn [rb, ra] []) bc.command ∧
    mapGet? (construct eqWCS impliesFn [rb, ra] [])._maps._map c = some [rb, ra] ∧
    resolve (construct eqWCS impliesFn [rb, ra] []) ctx none c
      = some { enterMultiChord := false, leaveMultiChord := false
               commands := rb.commands, bubble := rb.bubble } := by
  have hwb : rb.when ≠ some .cfalse := when_ne_cfalse_of_matches ctx _ hrbctx
  have hmerged : handleRemovals eqWCS ([rb, ra] ++ []) = [rb, ra] := by
    apply handleRemovals_eq_self
    intro r hr
    simp only [List.append_nil, List.mem_cons, List.not_mem_nil, or_false] at hr
    rcases hr with h | h
    · subst h; exact hrbrem
    · subst h; exact hrarem
  have hstep1 : addRule impliesFn ⟨[], []⟩ rb
      = ⟨mapSet [] c [rb], mapSet [] bc.command [rb]⟩ := by
    rw [addRule_cons impliesFn ⟨[], []⟩ rb c [] hrbch hwb]
    rw [_addKeyPress_fresh impliesFn ⟨[], []⟩ c rb rfl]
    rw [_addToLookupMap_single _ rb bc hrbc]
    rfl
  have hgb : mapGet? (mapSet ([] : List (String × List ResolvedKeybindingItem))
      bc.command [rb]) bc.command = some [rb] := mapGet?_mapSet_self _ _ _
  have hcs : conflictStep impliesFn ra ⟨mapSet [] c [rb], mapSet [] bc.command [rb]⟩ rb
      = ⟨mapSet [] c [rb], mapSet (mapSet [] bc.command [rb]) bc.command []⟩ := by
    unfold conflictStep
    have hceq : commandsEqual rb.commands ra.commands = false := by
      rw [hrbc, hrac]
      simp [commandsEqual, hne]
    rw [hceq, hrbch, hrach, hinc]
    show _removeFromLookupMap ⟨mapSet [] c [rb], mapSet [] bc.command [rb]⟩ rb
      = ⟨mapSet [] c [rb], mapSet (mapSet [] bc.command [rb]) bc.command []⟩
    rw [_removeFromLookupMap_found _ rb bc [rb] hrbc hgb]
    rw [removeFirst_cons_self]
  have hstep2 : addRule impliesFn ⟨mapSet [] c [rb], mapSet [] bc.command [rb]⟩ ra
      = ⟨mapSet (mapSet [] c [rb]) c ([rb] ++ [ra]),
         mapSet (mapSet (mapSet [] bc.command [rb]) bc.command []) ac.command [ra]⟩ := by
    rw [addRule_cons impliesFn _ ra c [] hrach hrawhen]
    rw [_addKeyPress_conflicts impliesFn _ c ra [rb]
      (show mapGet? (⟨mapSet [] c [rb], mapSet [] bc.command [rb]⟩ : Maps)._map c
          = some [rb] by exact mapGet?_mapSet_self [] c [rb])]
    have hfold : ([rb].reverse.foldl (conflictStep impliesFn ra)
        ⟨mapSet [] c [rb], mapSet [] bc.command [rb]⟩)
        = conflictStep impliesFn ra ⟨mapSet [] c [rb], mapSet [] bc.command [rb]⟩ rb := rfl
    rw [hfold, hcs]
    show _addToLookupMap ⟨mapSet (mapSet [] c [rb]) c ([rb] ++ [ra]),
        mapSet (mapSet [] bc.command [rb]) bc.command []⟩ ra
      = ⟨mapSet (mapSet [] c [rb]) c ([rb] ++ [ra]),
         mapSet (mapSet (mapSet [] bc.command [rb]) bc.command []) ac.command [ra]⟩
    rw [_addToLookupMap_single _ ra ac hrac]
    have hga : mapGet? (mapSet (mapSet [] bc.command [rb]) bc.command []) ac.command
        = none := by
      rw [mapGet?_mapSet_ne _ _ _ _ (Ne.symm hne)]
      rw [mapGet?_mapSet_ne _ _ _ _ (Ne.symm hne)]
      rfl
    rw [hga]
    rfl
  have hmapsEq : (construct eqWCS impliesFn [rb, ra] [])._maps
      = ⟨mapSet (mapSet [] c [rb]) c ([rb] ++ [ra]),
         mapSet (mapSet (mapSet [] bc.command [rb]) bc.command []) ac.command [ra]⟩ := by
    have h0 : (construct eqWCS impliesFn [rb, ra] [])._maps
        = buildMaps impliesFn (handleRemovals eqWCS ([rb, ra] ++ [])) := rfl
    have h1 : buildMaps impliesFn [rb, ra]
        = addRule impliesFn (addRule impliesFn ⟨[], []⟩ rb) ra := rfl
    rw [h0, hmerged, h1, hstep1, hstep2]
  have hget : mapGet? (construct eqWCS impliesFn [rb, ra] [])._maps._map c
      = some [rb, ra] := by
    rw [hmapsEq]
    show mapGet? (mapSet (mapSet [] c [rb]) c ([rb] ++ [ra])) c = some [rb, ra]
    rw [mapGet?_mapSet_self]
    rfl
  refine ⟨?_, hget, ?_⟩
  · have hlb : mapGet? (construct eqWCS impliesFn [rb, ra] [])._maps._lookupMap bc.command
        = some [] := by
      rw [hmapsEq]
      show mapGet? (mapSet (mapSet (mapSet [] bc.command [rb]) bc.command [])
        ac.command [ra]) bc.command = some []
      rw [mapGet?_mapSet_ne _ _ _ _ hne]
      exact mapGet?_mapSet_self _ _ _
    have hlk : lookupKeybindings (construct eqWCS impliesFn [rb, ra] []) bc.command
        = [] := by
      unfold lookupKeybindings
      rw [hlb]
      rfl
    rw [hlk]
    exact List.not_mem_nil rb
  · have hfind : _findCommand ctx [rb, ra] = some rb := by
      unfold _findCommand
      exact find?_reverse_append_scan _ [] [ra] rb
        (by
          intro y hy
          rw [List.mem_singleton] at hy
          subst hy
          exact hractx) hrbctx
    rw [resolve_currentChord_none, hget]
    simp only [hfind]
    rw [hrbch]
    simp

/-- Witness for C3 at a concrete input, with an `implies` oracle that
relates the two predicates. -/
theorem C3_witness :
    exEarly ∉ lookupKeybindings (construct relNever relAlways [exEarly, exLate] []) "ca" ∧
    mapGet? (construct relNever relAlways [exEarly, exLate] [])._maps._map "a"
      = some [exEarly, exLate] ∧
    resolve (construct relNever relAlways [exEarly, exLate] []) ["pa"] none "a"
      = some { enterMultiChord := false, leaveMultiChord := false
               commands := exEarly.commands, bubble := exEarly.bubble } :=
  C3_subsumption_removes_reverse_index_only relNever relAlways exEarly exLate "a"
    { command := "ca" } { command := "cb" } ["pa"]
    (by decide) (by decide) (by decide) (by decide) (by decide) (by decide)
    (by decide) (by decide) (by decide) (by decide) (by decide)

/-! ## Claims about the reverse lookups -/

/-- Counterexample to C5 as stated: two candidates for command `c`, the
context matches neither, yet `lookupPrimaryKeybinding` returns the
most-recently-inserted candidate (`exNew`), not the single oldest one
(`exOld`, the head of the insertion-ordered entry). -/
theorem C5_counterexample :
    mapGet? (construct relNever relNever [exOld, exNew] [])._maps._lookupMap "c"
      = some [exOld, exNew] ∧
    (∀ it ∈ [exOld, exNew], _contextMatchesRules [] it.when = false) ∧
    exOld ≠ exNew ∧
    lookupPrimaryKeybinding (construct relNever relNever [exOld, exNew] []) "c" []
      = some exNew := by decide

/-- Claim C5 (amended): for every commandId with at least one reverse
index entry, `lookupPrimaryKeybinding` never returns `none`; with one
candidate it returns it; with several it scans most-recent-first and
returns the first whose predicate is satisfied, and if none matches it
falls back to the single most-recently-inserted (last) candidate. -/
theorem C5_lookupPrimaryKeybinding_total
    (r : State) (commandId : String) (ctx : Context)
    (items : List ResolvedKeybindingItem)
    (hmap : mapGet? r._maps._lookupMap commandId = some items)
    (hne : items ≠ []) :
    (lookupPrimaryKeybinding r commandId ctx).isSome = true ∧
    (items.length = 1 → lookupPrimaryKeybinding r commandId ctx = items[0]?) ∧
    (1 < items.length →
      ∀ pre x post, items = pre ++ x :: post →
        (∀ y ∈ post, _contextMatchesRules ctx y.when = false) →
        _contextMatchesRules ctx x.when = true →
        lookupPrimaryKeybinding r commandId ctx = some x) ∧
    (1 < items.length →
      (∀ y ∈ items, _contextMatchesRules ctx y.when = false) →
      lookupPrimaryKeybinding r commandId ctx = items.getLast?) := by
  have h0 : ¬(items.length = 0) := fun h => hne (List.length_eq_zero.mp h)
  have hpos : 0 < items.length := Nat.pos_of_ne_zero h0
  have hbody : lookupPrimaryKeybinding r commandId ctx =
      (if items.length = 0 then none
       else if items.length = 1 then items[0]?
       else
         match items.reverse.find? (fun item => _contextMatchesRules ctx item.when) with
         | some item => some item
         | none => items[items.length - 1]?) := by
    unfold lookupPrimaryKeybinding
    rw [hmap]
  refine ⟨?_, ?_, ?_, ?_⟩
  · rw [hbody, if_neg h0]
    by_cases h1 : items.length = 1
    · rw [if_pos h1]
      rw [List.getElem?_eq_getElem hpos]
      rfl
    · rw [if_neg h1]
      cases hfind : items.reverse.find? (fun item => _contextMatchesRules ctx item.when) with
      | some it => rfl
      | none =>
        rw [List.getElem?_eq_getElem (Nat.sub_lt hpos Nat.one_pos)]
        rfl
  · intro h1
    rw [hbody, if_neg h0, if_pos h1]
  · intro hlen pre x post hdecomp hpost hx
    have h1 : ¬(items.length = 1) := by omega
    have hfind : items.reverse.find? (fun item => _contextMatchesRules ctx item.when)
        = some x := by
      rw [hdecomp]
      exact find?_reverse_append_scan _ pre post x hpost hx
    rw [hbody, if_neg h0, if_neg h1]
    simp only [hfind]
  · intro hlen hall
    have h1 : ¬(items.length = 1) := by omega
    have hfind : items.reverse.find? (fun item => _contextMatchesRules ctx item.when)
        = none :=
      List.find?_eq_none.mpr (fun y hy => by
        rw [hall y (List.mem_reverse.mp hy)]; simp)
    rw [hbody, if_neg h0, if_neg h1]
    simp only [hfind]
    rw [List.getLast?_eq_getElem?]

/-- Witness for the amended C5 at a concrete input: the two-candidate
resolver has a non-null primary keybinding even though the context
matches neither candidate. -/
theorem C5_witness :
    (lookupPrimaryKeybinding (construct relNever relNever [exOld, exNew] []) "c" []).isSome
      = true :=
  (C5_lookupPrimaryKeybinding_total (construct relNever relNever [exOld, exNew] [])
    "c" [] [exOld, exNew] (by decide) (by decide)).1

theorem mem_dbcInsert (acc : List String) (kc : KeyboundCommand) (cmd : String) :
    cmd ∈ dbcInsert acc kc
      ↔ cmd ∈ acc ∨ (kc.command = cmd ∧ cmd ≠ "" ∧ startsWithDash cmd = false) := by
  unfold dbcInsert
  by_cases hc : (decide ¬kc.command = "" && !startsWithDash kc.command) = true
  · rw [if_pos hc]
    have hprops : kc.command ≠ "" ∧ startsWithDash kc.command = false := by
      have hc2 := hc
      simp only [Bool.and_eq_true, decide_eq_true_eq, Bool.not_eq_true'] at hc2
      exact hc2
    by_cases hm : acc.contains kc.command
    · rw [if_pos hm]
      constructor
      · exact Or.inl
      · rintro (h | ⟨heq, -, -⟩)
        · exact h
        · rw [← heq]
          exact List.mem_of_elem_eq_true hm
    · rw [if_neg hm]
      rw [List.mem_append, List.mem_singleton]
      constructor
      · rintro (h | h)
        · exact Or.inl h
        · exact Or.inr ⟨h.symm, h ▸ hprops.1, h ▸ hprops.2⟩
      · rintro (h | ⟨heq, -, -⟩)
        · exact Or.inl h
        · exact Or.inr heq.symm
  · rw [if_neg hc]
    constructor
    · exact Or.inl
    · rintro (h | ⟨heq, hne, hsw⟩)
      · exact h
      · exfalso
        apply hc
        rw [heq]
        simp [hne, hsw]

theorem mem_foldl_dbcInsert (cmds : List KeyboundCommand) (acc : List String)
    (cmd : String) :
    cmd ∈ cmds.foldl dbcInsert acc
      ↔ cmd ∈ acc ∨ ∃ kc ∈ cmds, kc.command = cmd ∧ cmd ≠ "" ∧
          startsWithDash cmd = false := by
  induction cmds generalizing acc with
  | nil => simp
  | cons kc rest ih =>
    rw [List.foldl_cons, ih, mem_dbcInsert]
    constructor
    · rintro ((h | h) | ⟨w, hw, hp⟩)
      · exact Or.inl h
      · exact Or.inr ⟨kc, List.mem_cons_self kc rest, h⟩
      · exact Or.inr ⟨w, List.mem_cons_of_mem kc hw, hp⟩
    · rintro (h | ⟨w, hw, hp⟩)
      · exact Or.inl (Or.inl h)
      · rcases List.mem_cons.mp hw with hww | hww
        · exact Or.inl (Or.inr (hww ▸ hp))
        · exact Or.inr ⟨w, hww, hp⟩

theorem mem_defaultBoundCommands_aux (defaults : List ResolvedKeybindingItem)
    (acc : List String) (cmd : String) :
    cmd ∈ defaults.foldl (fun acc k => k.commands.foldl dbcInsert acc) acc
      ↔ cmd ∈ acc ∨ ∃ d ∈ defaults, ∃ kc ∈ d.commands, kc.command = cmd ∧ cmd ≠ "" ∧
          startsWithDash cmd = false := by
  induction defaults generalizing acc with
  | nil => simp
  | cons d rest ih =>
    rw [List.foldl_cons, ih, mem_foldl_dbcInsert]
    constructor
    · rintro ((h | ⟨w, hw, hp⟩) | ⟨e, he, hp⟩)
      · exact Or.inl h
      · exact Or.inr ⟨d, List.mem_cons_self d rest, w, hw, hp⟩
      · exact Or.inr ⟨e, List.mem_cons_of_mem d he, hp⟩
    · rintro (h | ⟨e, he, w, hw, hp⟩)
      · exact Or.inl (Or.inl h)
      · rcases List.mem_cons.mp he with hee | hee
        · exact Or.inl (Or.inr ⟨w, hee ▸ hw, hp⟩)
        · exact Or.inr ⟨e, hee, w, hw, hp⟩

/-- Counterexample to C6 as stated: a commandId of a multi-command
default rule is in `getDefaultBoundCommands` even though no default
single-command binding for it exists. -/
theorem C6_counterexample :
    "mx" ∈ getDefaultBoundCommands (construct relNever relNever [exMultiCmd] []) ∧
    ∀ r ∈ [exMultiCmd], r.commands.length ≠ 1 := by decide

/-- Claim C6 (amended): `getDefaultBoundCommands` contains exactly the
nonempty commandIds not starting with `-` that occur in some command
(possibly of a multi-command rule) of some default rule; the set does
not depend on the overrides, so a commandId whose only default binding
is erased by a removal directive is still in the set, and a commandId
bound only by user overrides never is. -/
theorem C6_defaultBoundCommands_characterization
    (eqWCS impliesFn : ContextKeyExpression → ContextKeyExpression → Bool)
    (defaults overrides : List ResolvedKeybindingItem) (cmd : String) :
    (cmd ∈ getDefaultBoundCommands (construct eqWCS impliesFn defaults overrides)
      ↔ ∃ d ∈ defaults, ∃ kc ∈ d.commands, kc.command = cmd ∧ cmd ≠ "" ∧
          startsWithDash cmd = false) ∧
    getDefaultBoundCommands (construct eqWCS impliesFn defaults overrides)
      = getDefaultBoundCommands (construct eqWCS impliesFn defaults []) := by
  constructor
  · have h0 : getDefaultBoundCommands (construct eqWCS impliesFn defaults overrides)
        = defaultBoundCommands defaults := rfl
    rw [h0]
    unfold defaultBoundCommands
    rw [mem_defaultBoundCommands_aux]
    simp
  · rfl

/-- Witness for the amended C6 at a concrete input: `x` is bound by a
default whose binding the override removes, and stays in the set. -/
theorem C6_witness :
    "x" ∈ getDefaultBoundCommands (construct relNever relNever [exDefX] [exRemoveX]) :=
  ((C6_defaultBoundCommands_characterization relNever relNever [exDefX] [exRemoveX]
      "x").1).mpr
    ⟨exDefX, by decide, { command := "x" }, by decide, by decide, by decide, by decide⟩

theorem mem_map_getD_addKeyPress_self
    (impliesFn : ContextKeyExpression → ContextKeyExpression → Bool)
    (st : Maps) (kp : String) (i : ResolvedKeybindingItem) :
    i ∈ (mapGet? (_addKeyPress impliesFn st kp i)._map kp).getD [] := by
  rw [_map_addKeyPress, mapGet?_mapSet_self]
  simp

theorem mem_map_getD_addKeyPress_mono
    (impliesFn : ContextKeyExpression → ContextKeyExpression → Bool)
    (st : Maps) (kp : String) (i : ResolvedKeybindingItem)
    (k : String) (x : ResolvedKeybindingItem)
    (h : x ∈ (mapGet? st._map k).getD []) :
    x ∈ (mapGet? (_addKeyPress impliesFn st kp i)._map k).getD [] := by
  rw [_map_addKeyPress]
  by_cases hk : k = kp
  · subst hk
    rw [mapGet?_mapSet_self]
    simp only [Option.getD_some]
    exact List.mem_append_left _ h
  · rw [mapGet?_mapSet_ne _ _ _ _ hk]
    exact h

theorem mem_map_getD_addRule_mono
    (impliesFn : ContextKeyExpression → ContextKeyExpression → Bool)
    (st : Maps) (r : ResolvedKeybindingItem) (k : String)
    (x : ResolvedKeybindingItem)
    (h : x ∈ (mapGet? st._map k).getD []) :
    x ∈ (mapGet? (addRule impliesFn st r)._map k).getD [] := by
  unfold addRule
  split
  · exact h
  · split
    · exact h
    · exact mem_map_getD_addKeyPress_mono impliesFn st _ r k x h

theorem mem_map_getD_foldl_mono
    (impliesFn : ContextKeyExpression → ContextKeyExpression → Bool)
    (ks : List ResolvedKeybindingItem) (st : Maps) (k : String)
    (x : ResolvedKeybindingItem)
    (h : x ∈ (mapGet? st._map k).getD []) :
    x ∈ (mapGet? ((ks.foldl (addRule impliesFn) st))._map k).getD [] := by
  induction ks generalizing st with
  | nil => exact h
  | cons y ys ih =>
    rw [List.foldl_cons]
    exact ih (addRule impliesFn st y) (mem_map_getD_addRule_mono impliesFn st y k x h)

theorem mem_foldl_addRule
    (impliesFn : ContextKeyExpression → ContextKeyExpression → Bool)
    (ks : List ResolvedKeybindingItem) (k : ResolvedKeybindingItem)
    (c0 : String) (cs : List String)
    (hch : k.chords = c0 :: cs) (hw : k.when ≠ some .cfalse) :
    ∀ st : Maps, k ∈ ks →
      k ∈ (mapGet? ((ks.foldl (addRule impliesFn) st))._map c0).getD [] := by
  induction ks with
  | nil => intro st h; cases h
  | cons y ys ih =>
    intro st h
    rw [List.foldl_cons]
    rcases List.mem_cons.mp h with h | h
    · subst h
      refine mem_map_getD_foldl_mono impliesFn ys (addRule impliesFn st k) c0 k ?_
      rw [addRule_cons impliesFn st k c0 cs hch hw]
      exact mem_map_getD_addKeyPress_self impliesFn st c0 k
    · exact ih (addRule impliesFn st y) h

/-- Claim C10: a rule with a non-empty chord list and zero commands is
admitted to the chord index (only zero-chord rules and rules with the
constant-false predicate are skipped at index build), so `resolve` can
return a non-null outcome whose commands list is empty while
`enterMultiChord` is false. -/
theorem C10_zero_command_rules_indexed :
    (∀ (impliesFn : ContextKeyExpression → ContextKeyExpression → Bool)
      (ks : List ResolvedKeybindingItem) (k : ResolvedKeybindingItem)
      (c0 : String) (cs : List String),
      k ∈ ks → k.chords = c0 :: cs → k.when ≠ some .cfalse →
      k ∈ (mapGet? (buildMaps impliesFn ks)._map c0).getD []) ∧
    (∀ (eqWCS impliesFn : ContextKeyExpression → ContextKeyExpression → Bool)
      (R : ResolvedKeybindingItem) (c0 : String) (ctx : Context),
      R.chords = [c0] → R.commands = [] → _contextMatchesRules ctx R.when = true →
      resolve (construct eqWCS impliesFn [R] []) ctx none c0
        = some { enterMultiChord := false, leaveMultiChord := false
                 commands := [], bubble := R.bubble }) := by
  constructor
  · intro impliesFn ks k c0 cs hmem hch hw
    exact mem_foldl_addRule impliesFn ks k c0 cs hch hw ⟨[], []⟩ hmem
  · intro eqWCS impliesFn R c0 ctx hch hcmd hctx
    have hrem : removalTarget? R = none := by
      unfold removalTarget?
      rw [hcmd]
    have hmerged : handleRemovals eqWCS ([R] ++ []) = [R] :=
      handleRemovals_eq_self _ _ (by
        intro r hr
        simp only [List.append_nil, List.mem_singleton] at hr
        subst hr
        exact hrem)
    have hw : R.when ≠ some .cfalse := when_ne_cfalse_of_matches ctx _ hctx
    have hmapsEq : (construct eqWCS impliesFn [R] [])._maps
        = addRule impliesFn ⟨[], []⟩ R := by
      have h0 : (construct eqWCS impliesFn [R] [])._maps
          = buildMaps impliesFn (handleRemovals eqWCS ([R] ++ [])) := rfl
      rw [h0, hmerged]
      rfl
    have hget : mapGet? (construct eqWCS impliesFn [R] [])._maps._map c0
        = some [R] := by
      rw [hmapsEq, _map_addRule impliesFn _ R c0 [] hch hw]
      show mapGet? (mapSet ((⟨[], []⟩ : Maps))._map c0
        (((mapGet? ((⟨[], []⟩ : Maps))._map c0).getD []) ++ [R])) c0 = some [R]
      rw [mapGet?_mapSet_self]
      rfl
    have hfind : _findCommand ctx [R] = some R := by
      unfold _findCommand
      simp [List.find?, hctx]
    rw [resolve_currentChord_none, hget]
    simp only [hfind]
    rw [hch]
    simp [hcmd]

/-- Witness for C10 at a concrete input: the zero-command rule on chord
`a` is indexed and resolves to an empty command list. -/
theorem C10_witness :
    exZeroCmd ∈ (mapGet? (buildMaps relNever [exZeroCmd])._map "a").getD [] ∧
    resolve (construct relNever relNever [exZeroCmd] []) [] none "a"
      = some { enterMultiChord := false, leaveMultiChord := false
               commands := [], bubble := exZeroCmd.bubble } :=
  ⟨C10_zero_command_rules_indexed.1 relNever [exZeroCmd] exZeroCmd "a" []
      (by decide) (by decide) (by decide),
   C10_zero_command_rules_indexed.2 relNever relNever exZeroCmd "a" []
      (by decide) (by decide) (by decide)⟩
